import Mathlib

/-!
Shallow embedding of the avsthon off-chain coordination code: the
aggregator's claim-ingestion loop (`queue_operator_response`), the
consensus stage (`process_completed_tasks`), the HTTP handlers
(`handle_submit_task`, `handle_task_status`), the task-directory writes
performed by the event listener and the consensus path, and the operator
pipeline's submission retry loop.

Addresses, task identifiers and signatures are opaque in the Rust code;
they are modelled as natural numbers, and ECDSA address recovery is a
parameter function from (signature, message) to an optional address.
DashMap / HashMap state is modelled as association lists with
insert-or-overwrite semantics.
-/

set_option autoImplicit false

abbrev Addr := Nat
abbrev TaskId := Nat
abbrev Sig := Nat

/-- TaskStatus from contract-bindings/src/lib.rs. -/
inductive TaskStatus where
  | EMPTY
  | PENDING
  | COMPLETED
  | FAILED
deriving DecidableEq, Repr

/-- From u8 conversion for TaskStatus: 0, 1, 2, 3, and any other value
maps to EMPTY. -/
def TaskStatus.ofU8 (v : Nat) : TaskStatus :=
  match v with
  | 0 => .EMPTY
  | 1 => .PENDING
  | 2 => .COMPLETED
  | 3 => .FAILED
  | _ => .EMPTY

/-- OperatorResponse from aggregator/src/server.rs: task id, free-form
result text, and a signature over the result text. -/
structure OperatorResponse where
  task_id : TaskId
  result : String
  signature : Sig
deriving DecidableEq, Repr

/-- A task's claim map (DashMap keyed by operator address). -/
abbrev TaskClaims := List (Addr × OperatorResponse)

/-- The outer claim accumulator (DashMap keyed by task id). -/
abbrev Accumulator := List (TaskId × TaskClaims)

/-- DashMap::insert on a task's claim map: overwrite the entry with the
same address in place, otherwise append a new entry. -/
def insertClaim : TaskClaims → Addr → OperatorResponse → TaskClaims
  | [], a, r => [(a, r)]
  | (k, v) :: rest, a, r =>
    if k = a then (a, r) :: rest else (k, v) :: insertClaim rest a r

/-- Lookup of one task's claim map in the accumulator; an absent task has
the empty map. -/
def lookupTask : Accumulator → TaskId → TaskClaims
  | [], _ => []
  | (t, cs) :: rest, tid => if t = tid then cs else lookupTask rest tid

/-- The accumulator update
entry(task_id).or_insert_with(DashMap::new).insert(addr, response) from
aggregator/src/lib.rs lines 317-320. -/
def insertTaskClaim : Accumulator → TaskId → Addr → OperatorResponse → Accumulator
  | [], tid, a, r => [(tid, insertClaim [] a r)]
  | (t, cs) :: rest, tid, a, r =>
    if t = tid then (t, insertClaim cs a r) :: rest
    else (t, cs) :: insertTaskClaim rest tid a r

/-- One iteration of Aggregator::queue_operator_response
(aggregator/src/lib.rs lines 306-334): recover the signer address from the
signature over the result text (an error aborts the receive loop, modelled
as `none`), insert the response into the task's claim map keyed by the
recovered address, then, when the map's size equals the operator-list
size, emit the map as an AggregatedResponse snapshot. -/
def queue_operator_response (recover : Sig → String → Option Addr)
    (operator_length : Nat) (operator_responses : Accumulator)
    (response : OperatorResponse) :
    Option (Accumulator × Option (TaskId × TaskClaims)) :=
  match recover response.signature response.result with
  | none => none
  | some operator_address =>
    let acc := insertTaskClaim operator_responses response.task_id
      operator_address response
    if (lookupTask acc response.task_id).length = operator_length then
      some (acc, some (response.task_id, lookupTask acc response.task_id))
    else
      some (acc, none)

/-- The queue_operator_response receive loop over a list of queued
responses, collecting every emitted AggregatedResponse in order; a
recovery error ends the loop (the Rust loop returns Err). -/
def queue_run (recover : Sig → String → Option Addr) (operator_length : Nat) :
    Accumulator → List OperatorResponse →
    Accumulator × List (TaskId × TaskClaims)
  | acc, [] => (acc, [])
  | acc, r :: rs =>
    match queue_operator_response recover operator_length acc r with
    | none => (acc, [])
    | some (acc2, e) =>
      let rest := queue_run recover operator_length acc2 rs
      (rest.1, e.toList ++ rest.2)

/-- Value of one digit character in the given radix, as in ruint's digit
parsing: 0-9, a-f and A-F, rejected when at or above the radix. -/
def digitVal (radix : Nat) (c : Char) : Option Nat :=
  let v : Option Nat :=
    if ('0' ≤ c ∧ c ≤ '9') then some (c.toNat - '0'.toNat)
    else if ('a' ≤ c ∧ c ≤ 'f') then some (c.toNat - 'a'.toNat + 10)
    else if ('A' ≤ c ∧ c ≤ 'F') then some (c.toNat - 'A'.toNat + 10)
    else none
  match v with
  | some d => if d < radix then some d else none
  | none => none

/-- Digit accumulation for U256::from_str_radix; underscore characters are
separators and are skipped. -/
def parseDigits (radix : Nat) : List Char → Nat → Option Nat
  | [], acc => some acc
  | c :: cs, acc =>
    if c = '_' then parseDigits radix cs acc
    else
      match digitVal radix c with
      | some d => parseDigits radix cs (acc * radix + d)
      | none => none

/-- The result.parse::<U256>() call from aggregator/src/lib.rs line 353:
radix prefix detection (0x hex, 0o octal, 0b binary, else decimal), digit
accumulation, rejecting a string with no digit body and any value at or
above 2^256. Stated on the character list so that the kernel can
evaluate it. -/
def parseU256 (s : String) : Option Nat :=
  let pr : Nat × List Char :=
    match s.data with
    | '0' :: 'x' :: rest => (16, rest)
    | '0' :: 'o' :: rest => (8, rest)
    | '0' :: 'b' :: rest => (2, rest)
    | l => (10, l)
  if pr.2 = [] then none
  else
    match parseDigits pr.1 pr.2 0 with
    | some v => if v < 2 ^ 256 then some v else none
    | none => none

/-- Rust str::trim on the claim's result text: drop leading and trailing
whitespace characters (structurally on the character list, so that the
kernel can evaluate it). -/
def rustTrim (s : String) : String :=
  String.mk
    (((s.data.dropWhile Char.isWhitespace).reverse.dropWhile
      Char.isWhitespace).reverse)

/-- The body of Aggregator::process_completed_tasks for one
AggregatedResponse (aggregator/src/lib.rs lines 345-364): trim and parse
every claim's result text as a U256 (the unwrap panics at the first
failure, modelled as `none`; indexing extracted_result[0] panics on an
empty snapshot, also `none`); all values equal to the first gives verdict
(COMPLETED, shared value) and any mismatch gives (FAILED, 0). -/
def process_completed_tasks (responses : TaskClaims) :
    Option (TaskStatus × Nat) :=
  match responses.mapM (fun e => parseU256 (rustTrim e.2.result)) with
  | none => none
  | some extracted =>
    match extracted with
    | [] => none
    | v0 :: _ =>
      if extracted.all (fun x => x == v0) then some (TaskStatus.COMPLETED, v0)
      else some (TaskStatus.FAILED, 0)

/-- Consensus verdict on the list of parsed values, the tail of the
process_completed_tasks body: every entry is compared with the first
(extracted_result[0]); all equal gives (COMPLETED, first value) and any
mismatch gives (FAILED, 0); the empty list models the panic of indexing
an empty vector. -/
def consensusOf (extracted : List Nat) : Option (TaskStatus × Nat) :=
  match extracted with
  | [] => none
  | v0 :: _ =>
    if extracted.all (fun x => x == v0) then some (TaskStatus.COMPLETED, v0)
    else some (TaskStatus.FAILED, 0)

/-- ServerError from aggregator/src/server.rs. -/
inductive ServerError where
  | InvalidSignature
  | InvalidOperator
  | TaskDoesNotExist
  | TaskAlreadyCompleted
  | InternalError (msg : String)
deriving DecidableEq, Repr

/-- HTTP status code of each error, from ServerError::into_response
(aggregator/src/server.rs lines 34-56). -/
def ServerError.statusCode : ServerError → Nat
  | .InvalidSignature => 400
  | .InvalidOperator => 403
  | .TaskDoesNotExist => 404
  | .TaskAlreadyCompleted => 409
  | .InternalError _ => 500

/-- The task directory (tasks map of task id to status). -/
abbrev TaskMap := List (TaskId × TaskStatus)

/-- Directory lookup. -/
def lookupStatus : TaskMap → TaskId → Option TaskStatus
  | [], _ => none
  | (t, s) :: rest, tid => if t = tid then some s else lookupStatus rest tid

/-- Directory insert-or-overwrite. -/
def insertStatus : TaskMap → TaskId → TaskStatus → TaskMap
  | [], tid, st => [(tid, st)]
  | (t, s) :: rest, tid, st =>
    if t = tid then (t, st) :: rest else (t, s) :: insertStatus rest tid st

/-- Status a caller observes for a task: the stored status, or EMPTY for
an absent id. -/
def dirGet (m : TaskMap) (t : TaskId) : TaskStatus :=
  (lookupStatus m t).getD .EMPTY

/-- The handle_submit_task handler (aggregator/src/server.rs lines
109-149): recover the signer from the signature over the result text
(failure means InvalidSignature), reject a signer outside the operator
list (InvalidOperator), then match the task's stored status: EMPTY or
absent means TaskDoesNotExist, COMPLETED or FAILED means
TaskAlreadyCompleted, and otherwise (PENDING) the response is forwarded
into the ingestion channel and the handler answers 200 OK. -/
def handle_submit_task (recover : Sig → String → Option Addr)
    (operator_list : List Addr) (tasks : TaskMap)
    (operator_response : OperatorResponse) :
    Except ServerError OperatorResponse :=
  match recover operator_response.signature operator_response.result with
  | none => .error .InvalidSignature
  | some recover_address =>
    if recover_address ∈ operator_list then
      match lookupStatus tasks operator_response.task_id with
      | some st =>
        if st = .EMPTY then .error .TaskDoesNotExist
        else if st = .COMPLETED ∨ st = .FAILED then
          .error .TaskAlreadyCompleted
        else .ok operator_response
      | none => .error .TaskDoesNotExist
    else .error .InvalidOperator

/-- HTTP status code of a submission: 200 on acceptance, else the error's
code. -/
def submitStatusCode (r : Except ServerError OperatorResponse) : Nat :=
  match r with
  | .ok _ => 200
  | .error e => e.statusCode

/-- The message forwarded into the ingestion pipeline by a submission:
present exactly when the handler accepted the claim. -/
def forwardedClaim (r : Except ServerError OperatorResponse) :
    Option OperatorResponse :=
  match r with
  | .ok resp => some resp
  | .error _ => none

/-- The handle_task_status handler (aggregator/src/server.rs lines
92-106): look the task up in the directory, defaulting to EMPTY, and
always answer Ok. -/
def handle_task_status (tasks : TaskMap) (task_id : TaskId) :
    Except ServerError TaskStatus :=
  match lookupStatus tasks task_id with
  | some st => .ok st
  | none => .ok .EMPTY

/-- A write to the task directory: the event listener's
tasks.insert(task_id, PENDING) (aggregator/src/lib.rs line 289), or the
consensus path's tasks.insert(task_id, task_status) (line 378) whose
status is COMPLETED when consensus was reached and FAILED otherwise. -/
inductive DirOp where
  | listen (t : TaskId)
  | finalize (t : TaskId) (consensus : Bool)
deriving DecidableEq, Repr

/-- Effect of one directory write. -/
def DirOp.apply (m : TaskMap) : DirOp → TaskMap
  | .listen t => insertStatus m t .PENDING
  | .finalize t c => insertStatus m t (if c then .COMPLETED else .FAILED)

/-- A sequence of directory writes applied in order. -/
def dirRun (m : TaskMap) : List DirOp → TaskMap
  | [] => m
  | op :: ops => dirRun (DirOp.apply m op) ops

/-- The transition discipline the spec claims for task statuses: stay
put, or move Empty to Pending, or move Pending to a terminal status. -/
def allowedStep (a b : TaskStatus) : Prop :=
  a = b ∨ (a = .EMPTY ∧ b = .PENDING) ∨
    (a = .PENDING ∧ (b = .COMPLETED ∨ b = .FAILED))

/-- One claim submission through the coordination surface composed with
the ingestion stage: a rejected submission leaves the accumulator
unchanged and forwards nothing; an accepted one enters
queue_operator_response, whose trigger compares against the size of the
same operator list the server checked membership in. -/
def submit_and_queue (recover : Sig → String → Option Addr)
    (operator_list : List Addr) (tasks : TaskMap) (acc : Accumulator)
    (r : OperatorResponse) : Accumulator × Option (TaskId × TaskClaims) :=
  match handle_submit_task recover operator_list tasks r with
  | .error _ => (acc, none)
  | .ok fwd =>
    match queue_operator_response recover operator_list.length acc fwd with
    | none => (acc, none)
    | some out => out

/-- Well-formedness of one task's claim map: distinct operator keys, every
claim stored under the address its own signature recovers to, and every
key a member of the operator list. -/
def ClaimsWf (recover : Sig → String → Option Addr)
    (operator_list : List Addr) (cs : TaskClaims) : Prop :=
  (cs.map Prod.fst).Nodup ∧
    ∀ p ∈ cs, recover p.2.signature p.2.result = some p.1 ∧
      p.1 ∈ operator_list

/-- Well-formedness of the whole accumulator. -/
def AccWf (recover : Sig → String → Option Addr)
    (operator_list : List Addr) (acc : Accumulator) : Prop :=
  ∀ e ∈ acc, ClaimsWf recover operator_list e.2

/-- Response of the coordinator's submission endpoint as seen by the
operator's retry loop. -/
inductive SubmitResult where
  | accepted
  | notFound
  | otherFailure
deriving DecidableEq, Repr

/-- Outcome of a claim submission attempt sequence. -/
inductive SubmitOutcome where
  | delivered
  | gaveUp
  | abandoned
deriving DecidableEq, Repr

/-- Modelled from the spec: the Operator Pipeline's submission-with-retry
step is missing from this source snapshot (operator/src/lib.rs ends at
task execution, with no claim-submission code), so the loop follows the
spec's words: post the Signed Claim to the coordinator; on a "not found"
response retry up to a fixed bound of 3 attempts with a fixed 1-second
delay between attempts, then give up; on any other failure response or
transport error, log and abandon with no further retry. The oracle `resp`
gives the endpoint's response to the i-th attempt; the result is (number
of attempts made, seconds slept between consecutive attempts, outcome),
and returning a value at all models completing without crashing. -/
def submitWithRetry (resp : Nat → SubmitResult) :
    Nat → Nat → Nat × List Nat × SubmitOutcome
  | 0, i => (i, [], .gaveUp)
  | fuel + 1, i =>
    match resp i with
    | .accepted => (i + 1, [], .delivered)
    | .otherFailure => (i + 1, [], .abandoned)
    | .notFound =>
      if fuel = 0 then (i + 1, [], .gaveUp)
      else
        let rest := submitWithRetry resp fuel (i + 1)
        (rest.1, 1 :: rest.2.1, rest.2.2)

/-- The operator's submission of one claim: at most 3 attempts. -/
def submit_claim (resp : Nat → SubmitResult) : Nat × List Nat × SubmitOutcome :=
  submitWithRetry resp 3 0

/-! Helper lemmas about the claim-map operations. -/

theorem insertClaim_mem {cs : TaskClaims} {a : Addr} {r : OperatorResponse}
    {p : Addr × OperatorResponse} :
    p ∈ insertClaim cs a r → p = (a, r) ∨ p ∈ cs := by
  induction cs with
  | nil => intro h; simpa [insertClaim] using h
  | cons hd tl ih =>
    obtain ⟨k, v⟩ := hd
    intro h
    by_cases hk : k = a
    · subst hk
      simp only [insertClaim, if_true, eq_self_iff_true, ite_true,
        List.mem_cons] at h
      rcases h with h | h
      · exact Or.inl h
      · exact Or.inr (List.mem_cons_of_mem _ h)
    · simp only [insertClaim, if_neg hk, List.mem_cons] at h
      rcases h with h | h
      · exact Or.inr (by simp [h])
      · rcases ih h with h' | h'
        · exact Or.inl h'
        · exact Or.inr (List.mem_cons_of_mem _ h')

theorem insertClaim_keys (cs : TaskClaims) (a : Addr) (r : OperatorResponse) :
    (insertClaim cs a r).map Prod.fst =
      if a ∈ cs.map Prod.fst then cs.map Prod.fst
      else cs.map Prod.fst ++ [a] := by
  induction cs with
  | nil => simp [insertClaim]
  | cons hd tl ih =>
    obtain ⟨k, v⟩ := hd
    by_cases hk : k = a
    · subst hk
      simp [insertClaim]
    · simp only [insertClaim, if_neg hk, List.map_cons, List.mem_cons]
      have hka : ¬ a = k := fun h => hk h.symm
      simp only [hka, false_or]
      by_cases hmem : a ∈ tl.map Prod.fst
      · simp [hmem, ih]
      · simp [hmem, ih]

theorem insertClaim_keys_nodup {cs : TaskClaims} {a : Addr}
    {r : OperatorResponse} (h : (cs.map Prod.fst).Nodup) :
    ((insertClaim cs a r).map Prod.fst).Nodup := by
  rw [insertClaim_keys]
  by_cases hmem : a ∈ cs.map Prod.fst
  · simpa [hmem] using h
  · simp only [hmem, if_neg, ite_false]
    rw [List.nodup_append]
    exact ⟨h, List.nodup_singleton a, by simpa using hmem⟩

theorem insertClaim_length (cs : TaskClaims) (a : Addr) (r : OperatorResponse) :
    (insertClaim cs a r).length =
      if a ∈ cs.map Prod.fst then cs.length else cs.length + 1 := by
  have h := congrArg List.length (insertClaim_keys cs a r)
  by_cases hmem : a ∈ cs.map Prod.fst
  · simpa [hmem] using h
  · simpa [hmem] using h

theorem ClaimsWf_insertClaim {recover : Sig → String → Option Addr}
    {ops : List Addr} {cs : TaskClaims} {a : Addr} {r : OperatorResponse}
    (h : ClaimsWf recover ops cs)
    (hr : recover r.signature r.result = some a) (hm : a ∈ ops) :
    ClaimsWf recover ops (insertClaim cs a r) := by
  refine ⟨insertClaim_keys_nodup h.1, ?_⟩
  intro p hp
  rcases insertClaim_mem hp with rfl | hp'
  · exact ⟨hr, hm⟩
  · exact h.2 p hp'

theorem ClaimsWf_length_le {recover : Sig → String → Option Addr}
    {ops : List Addr} {cs : TaskClaims} (h : ClaimsWf recover ops cs) :
    cs.length ≤ ops.length := by
  have hsub : cs.map Prod.fst ⊆ ops := by
    intro x hx
    rcases List.mem_map.mp hx with ⟨p, hp, rfl⟩
    exact (h.2 p hp).2
  have := (List.subperm_of_subset h.1 hsub).length_le
  simpa using this

theorem lookupTask_insert_self (acc : Accumulator) (t : TaskId) (a : Addr)
    (r : OperatorResponse) :
    lookupTask (insertTaskClaim acc t a r) t =
      insertClaim (lookupTask acc t) a r := by
  induction acc with
  | nil => simp [insertTaskClaim, lookupTask]
  | cons hd tl ih =>
    obtain ⟨t2, cs⟩ := hd
    by_cases ht : t2 = t
    · subst ht
      simp [insertTaskClaim, lookupTask]
    · simp [insertTaskClaim, lookupTask, ht, ih]

theorem lookupTask_insert_other {acc : Accumulator} {t t2 : TaskId}
    {a : Addr} {r : OperatorResponse} (h : t2 ≠ t) :
    lookupTask (insertTaskClaim acc t a r) t2 = lookupTask acc t2 := by
  induction acc with
  | nil => simp [insertTaskClaim, lookupTask, Ne.symm h]
  | cons hd tl ih =>
    obtain ⟨t3, cs⟩ := hd
    by_cases ht : t3 = t
    · subst ht
      simp [insertTaskClaim, lookupTask, Ne.symm h]
    · by_cases ht2 : t3 = t2
      · subst ht2
        simp [insertTaskClaim, lookupTask, ht]
      · simp [insertTaskClaim, lookupTask, ht, ht2, ih]

theorem lookupTask_mem_or_nil (acc : Accumulator) (t : TaskId) :
    lookupTask acc t = [] ∨ (t, lookupTask acc t) ∈ acc := by
  induction acc with
  | nil => exact Or.inl rfl
  | cons hd tl ih =>
    obtain ⟨t2, cs⟩ := hd
    by_cases ht : t2 = t
    · subst ht
      right
      simp [lookupTask]
    · rw [show lookupTask ((t2, cs) :: tl) t = lookupTask tl t by
        simp [lookupTask, ht]]
      rcases ih with h | h
      · exact Or.inl h
      · exact Or.inr (List.mem_cons_of_mem _ h)

theorem AccWf_lookup {recover : Sig → String → Option Addr}
    {ops : List Addr} {acc : Accumulator} (h : AccWf recover ops acc)
    (t : TaskId) : ClaimsWf recover ops (lookupTask acc t) := by
  rcases lookupTask_mem_or_nil acc t with he | hm
  · rw [he]
    exact ⟨List.nodup_nil, by simp⟩
  · exact h _ hm

theorem insertTaskClaim_mem {acc : Accumulator} {tid : TaskId} {a : Addr}
    {r : OperatorResponse} {e : TaskId × TaskClaims} :
    e ∈ insertTaskClaim acc tid a r →
      e ∈ acc ∨ (∃ cs, (tid, cs) ∈ acc ∧ e = (tid, insertClaim cs a r)) ∨
        e = (tid, insertClaim [] a r) := by
  induction acc with
  | nil =>
    intro h
    right; right
    simpa [insertTaskClaim] using h
  | cons hd tl ih =>
    obtain ⟨t2, cs⟩ := hd
    intro h
    by_cases ht : t2 = tid
    · subst ht
      simp only [insertTaskClaim, if_true, eq_self_iff_true, ite_true,
        List.mem_cons] at h
      rcases h with h | h
      · exact Or.inr (Or.inl ⟨cs, by simp, h⟩)
      · exact Or.inl (List.mem_cons_of_mem _ h)
    · simp only [insertTaskClaim, if_neg ht, List.mem_cons] at h
      rcases h with h | h
      · exact Or.inl (by simp [h])
      · rcases ih h with h' | h' | h'
        · exact Or.inl (List.mem_cons_of_mem _ h')
        · rcases h' with ⟨cs2, hcs2, he⟩
          exact Or.inr (Or.inl ⟨cs2, List.mem_cons_of_mem _ hcs2, he⟩)
        · exact Or.inr (Or.inr h')

theorem AccWf_insertTaskClaim {recover : Sig → String → Option Addr}
    {ops : List Addr} {acc : Accumulator} {tid : TaskId} {a : Addr}
    {r : OperatorResponse} (h : AccWf recover ops acc)
    (hr : recover r.signature r.result = some a) (hm : a ∈ ops) :
    AccWf recover ops (insertTaskClaim acc tid a r) := by
  intro e he
  rcases insertTaskClaim_mem he with h' | h' | h'
  · exact h _ h'
  · rcases h' with ⟨cs, hcs, rfl⟩
    exact ClaimsWf_insertClaim (h _ hcs) hr hm
  · subst h'
    exact ClaimsWf_insertClaim ⟨List.nodup_nil, by simp⟩ hr hm

/-! Helper lemmas about the queue step, the parsers and the handlers. -/

theorem queue_step_eq {recover : Sig → String → Option Addr} {n : Nat}
    {acc : Accumulator} {r : OperatorResponse} {a : Addr}
    (h : recover r.signature r.result = some a) :
    queue_operator_response recover n acc r =
      some (insertTaskClaim acc r.task_id a r,
        if (lookupTask (insertTaskClaim acc r.task_id a r) r.task_id).length = n
        then some (r.task_id,
          lookupTask (insertTaskClaim acc r.task_id a r) r.task_id)
        else none) := by
  simp only [queue_operator_response, h]
  split <;> rfl

theorem mapM_eq_some_iff {α β : Type} {f : α → Option β} :
    ∀ {l : List α} {v : List β},
      l.mapM f = some v ↔ List.Forall₂ (fun x y => f x = some y) l v := by
  intro l
  induction l with
  | nil =>
    intro v
    constructor
    · intro h
      simp only [List.mapM_nil] at h
      cases h
      exact List.Forall₂.nil
    · intro h
      cases h
      rfl
  | cons x xs ih =>
    intro v
    rw [List.mapM_cons]
    constructor
    · intro h
      cases hf : f x with
      | none => rw [hf] at h; simp at h
      | some y =>
        rw [hf] at h
        cases hxs : xs.mapM f with
        | none => rw [hxs] at h; simp at h
        | some ys =>
          rw [hxs] at h
          simp at h
          cases h
          exact List.Forall₂.cons hf (ih.mp hxs)
    · intro h
      cases h with
      | cons hf hrest =>
        rw [hf, ih.mpr hrest]
        simp

theorem mapM_eq_none_of_mem {α β : Type} {f : α → Option β} :
    ∀ {l : List α} {x : α}, x ∈ l → f x = none → l.mapM f = none := by
  intro l
  induction l with
  | nil => intro x hx; cases hx
  | cons y ys ih =>
    intro x hx hfx
    rw [List.mapM_cons]
    rcases List.mem_cons.mp hx with rfl | hx'
    · rw [hfx]; rfl
    · cases hf : f y with
      | none => rfl
      | some b => rw [ih hx' hfx]; rfl

theorem process_eq_consensus (c : TaskClaims) :
    process_completed_tasks c =
      (c.mapM (fun e => parseU256 (rustTrim e.2.result))).bind consensusOf := by
  unfold process_completed_tasks
  cases h : c.mapM (fun e => parseU256 (rustTrim e.2.result)) with
  | none => rfl
  | some v =>
    cases v with
    | nil => rfl
    | cons v0 rest => rfl

theorem consensusOf_perm {v₁ v₂ : List Nat} (h : v₁.Perm v₂) :
    consensusOf v₁ = consensusOf v₂ := by
  cases v₁ with
  | nil => rw [List.Perm.eq_nil h.symm]
  | cons x₁ t₁ =>
    cases v₂ with
    | nil => exact absurd (List.Perm.eq_nil h) (by simp)
    | cons x₂ t₂ =>
      have hmem := fun (y : Nat) => h.mem_iff (a := y)
      simp only [consensusOf, List.all_eq_true, beq_iff_eq]
      by_cases hall : ∀ y ∈ x₁ :: t₁, y = x₁
      · have hx2 : x₂ = x₁ := hall x₂ ((hmem x₂).mpr (by simp))
        have hall2 : ∀ y ∈ x₂ :: t₂, y = x₂ := fun y hy => by
          rw [hx2]
          exact hall y ((hmem y).mpr hy)
        rw [if_pos hall, if_pos hall2, hx2]
      · have hall2 : ¬ ∀ y ∈ x₂ :: t₂, y = x₂ := by
          intro hc
          apply hall
          intro y hy
          have hx1 : x₁ = x₂ := hc x₁ ((hmem x₁).mp (by simp))
          rw [hx1]
          exact hc y ((hmem y).mp hy)
        rw [if_neg hall, if_neg hall2]

theorem handle_submit_task_ok {recover : Sig → String → Option Addr}
    {ops : List Addr} {tasks : TaskMap} {r fwd : OperatorResponse}
    (h : handle_submit_task recover ops tasks r = .ok fwd) :
    fwd = r ∧ ∃ a, recover r.signature r.result = some a ∧ a ∈ ops ∧
      lookupStatus tasks r.task_id = some .PENDING := by
  cases hrec : recover r.signature r.result with
  | none =>
    simp only [handle_submit_task, hrec] at h
    exact absurd h (by simp)
  | some a =>
    simp only [handle_submit_task, hrec] at h
    by_cases hmem : a ∈ ops
    · rw [if_pos hmem] at h
      cases hst : lookupStatus tasks r.task_id with
      | none => rw [hst] at h; exact absurd h (by simp)
      | some st =>
        rw [hst] at h
        cases st with
        | EMPTY => simp at h
        | PENDING =>
          simp at h
          exact ⟨h.symm, a, rfl, hmem, rfl⟩
        | COMPLETED => simp at h
        | FAILED => simp at h
    · rw [if_neg hmem] at h
      exact absurd h (by simp)

theorem lookupStatus_insert_self (m : TaskMap) (t : TaskId) (st : TaskStatus) :
    lookupStatus (insertStatus m t st) t = some st := by
  induction m with
  | nil => simp [insertStatus, lookupStatus]
  | cons hd tl ih =>
    obtain ⟨t2, s2⟩ := hd
    by_cases ht : t2 = t
    · subst ht
      simp [insertStatus, lookupStatus]
    · simp [insertStatus, lookupStatus, ht, ih]

theorem lookupStatus_insert_other {m : TaskMap} {t t2 : TaskId}
    {st : TaskStatus} (h : t2 ≠ t) :
    lookupStatus (insertStatus m t st) t2 = lookupStatus m t2 := by
  induction m with
  | nil => simp [insertStatus, lookupStatus, Ne.symm h]
  | cons hd tl ih =>
    obtain ⟨t3, s3⟩ := hd
    by_cases ht : t3 = t
    · subst ht
      simp [insertStatus, lookupStatus, Ne.symm h]
    · by_cases ht2 : t3 = t2
      · subst ht2
        simp [insertStatus, lookupStatus, ht]
      · simp [insertStatus, lookupStatus, ht, ht2, ih]

/-! Claim theorems. -/

/-- C1 (counterexample): with a single registered operator, the same
operator submitting twice makes queue_operator_response emit an
AggregatedResponse verdict twice for the same task: the second insert
arrives after full participation was already reached, overwrites the
existing claim, leaves the claim count equal to the membership size, and
re-fires the trigger; so the claim that exactly one verdict is produced
per task is false. -/
theorem queue_second_verdict_after_full :
    ((queue_run (fun s _ => some s) 1 []
        [⟨0, "42", 7⟩, ⟨0, "42", 7⟩]).2.map Prod.fst) = [0, 0] := rfl

/-- C1 (amended): a verdict is forwarded by a queue_operator_response step
exactly when, after the insert, the number of distinct operator addresses
holding a claim for the submitted task equals the operator-list size; in
particular the first verdict for a task appears only at full
participation, but any later insert that leaves the count equal to the
membership size (an overwrite by an already-counted operator) fires the
trigger again. -/
theorem queue_verdict_iff_full {recover : Sig → String → Option Addr}
    {n : Nat} {acc acc2 : Accumulator} {r : OperatorResponse} {a : Addr}
    {emit : Option (TaskId × TaskClaims)}
    (hrec : recover r.signature r.result = some a)
    (hnd : ((lookupTask acc r.task_id).map Prod.fst).Nodup)
    (hstep : queue_operator_response recover n acc r = some (acc2, emit)) :
    (emit.isSome ↔
      (((lookupTask acc2 r.task_id).map Prod.fst).dedup.length = n)) ∧
    ∀ e, emit = some e → e = (r.task_id, lookupTask acc2 r.task_id) := by
  rw [queue_step_eq hrec] at hstep
  injection hstep with hstep
  injection hstep with hacc hemit
  subst hacc
  subst hemit
  rw [lookupTask_insert_self]
  have hnd2 := insertClaim_keys_nodup (a := a) (r := r) hnd
  rw [List.dedup_eq_self.mpr hnd2, List.length_map]
  by_cases hlen : (insertClaim (lookupTask acc r.task_id) a r).length = n
  · rw [if_pos hlen]
    exact ⟨by simp [hlen], fun e he => by injection he with he; exact he.symm⟩
  · rw [if_neg hlen]
    exact ⟨by simp [hlen], fun e he => by cases he⟩

/-- C1 (witness): concrete instance of the amended theorem with one
operator and an empty accumulator: the single insert reaches full
participation and the trigger fires. -/
theorem queue_verdict_iff_full_witness :
    ((some ((0 : TaskId),
        lookupTask (insertTaskClaim [] 0 7 ⟨0, "42", 7⟩) 0) :
        Option (TaskId × TaskClaims)).isSome ↔
      ((lookupTask (insertTaskClaim [] 0 7 ⟨0, "42", 7⟩) 0).map
        Prod.fst).dedup.length = 1) :=
  (@queue_verdict_iff_full (fun s _ => some s) 1 [] _ ⟨0, "42", 7⟩ 7 _
    rfl (by simp [lookupTask]) (by rfl)).1

/-- C2: when every claim text in a completed snapshot parses, an
all-equal value list yields verdict (COMPLETED, shared value) and any two
differing values yield (FAILED, 0). -/
theorem process_verdicts (claims : TaskClaims) (vals : List Nat)
    (hp : claims.mapM (fun e => parseU256 (rustTrim e.2.result)) = some vals) :
    (∀ w, vals ≠ [] → (∀ v ∈ vals, v = w) →
        process_completed_tasks claims = some (TaskStatus.COMPLETED, w)) ∧
    ((∃ v₁ ∈ vals, ∃ v₂ ∈ vals, v₁ ≠ v₂) →
        process_completed_tasks claims = some (TaskStatus.FAILED, 0)) := by
  rw [process_eq_consensus, hp]
  cases vals with
  | nil =>
    exact ⟨fun w hne _ => absurd rfl hne, by rintro ⟨v₁, hv₁, -⟩; cases hv₁⟩
  | cons v0 rest =>
    constructor
    · intro w hne hall
      have h0 : v0 = w := hall v0 (by simp)
      subst h0
      have hallb : (v0 :: rest).all (fun x => x == v0) = true := by
        rw [List.all_eq_true]
        intro x hx
        exact beq_iff_eq.mpr (hall x hx)
      simp only [Option.some_bind, consensusOf, hallb, if_true]
    · rintro ⟨v₁, hv₁, v₂, hv₂, hne⟩
      have : ¬ (v0 :: rest).all (fun x => x == v0) = true := by
        rw [List.all_eq_true]
        intro hc
        have e₁ := beq_iff_eq.mp (hc v₁ hv₁)
        have e₂ := beq_iff_eq.mp (hc v₂ hv₂)
        exact hne (e₁.trans e₂.symm)
      simp only [Option.some_bind, consensusOf, if_neg this]

/-- C2 (witness): the spec's concrete scenario: three operators with
claims 42, 42, 42 give (COMPLETED, 42); claims 42, 43, 42 give
(FAILED, 0). -/
theorem process_verdicts_witness :
    process_completed_tasks
        [(1, ⟨0, "42", 1⟩), (2, ⟨0, "42", 2⟩), (3, ⟨0, "42", 3⟩)] =
      some (TaskStatus.COMPLETED, 42) ∧
    process_completed_tasks
        [(1, ⟨0, "42", 1⟩), (2, ⟨0, "43", 2⟩), (3, ⟨0, "42", 3⟩)] =
      some (TaskStatus.FAILED, 0) :=
  ⟨(process_verdicts
      [(1, ⟨0, "42", 1⟩), (2, ⟨0, "42", 2⟩), (3, ⟨0, "42", 3⟩)]
      [42, 42, 42] (by rfl)).1 42 (by decide) (by decide),
   (process_verdicts
      [(1, ⟨0, "42", 1⟩), (2, ⟨0, "43", 2⟩), (3, ⟨0, "42", 3⟩)]
      [42, 43, 42] (by rfl)).2 ⟨42, by decide, 43, by decide, by decide⟩⟩

/-- C3: every submission through the coordination surface preserves
well-formedness of the claim accumulator — per task at most one claim per
operator address (a resubmission overwrites in place), every retained
claim keyed by the address recovered from its own signature, that address
a member of the operator list — and hence no task's claim map ever holds
more entries than the operator list has members. -/
theorem submit_preserves_wf (recover : Sig → String → Option Addr)
    (ops : List Addr) (tasks : TaskMap) (acc : Accumulator)
    (r : OperatorResponse) (hwf : AccWf recover ops acc) :
    AccWf recover ops (submit_and_queue recover ops tasks acc r).1 ∧
    ∀ t, (lookupTask (submit_and_queue recover ops tasks acc r).1 t).length ≤
      ops.length := by
  have key : AccWf recover ops (submit_and_queue recover ops tasks acc r).1 := by
    unfold submit_and_queue
    cases hh : handle_submit_task recover ops tasks r with
    | error e => exact hwf
    | ok fwd =>
      obtain ⟨rfl, a, hrec, hmem, hst⟩ := handle_submit_task_ok hh
      show AccWf recover ops
        (match queue_operator_response recover ops.length acc fwd with
          | none => (acc, none)
          | some out => out).1
      rw [queue_step_eq hrec]
      exact AccWf_insertTaskClaim hwf hrec hmem
  exact ⟨key, fun t => ClaimsWf_length_le (AccWf_lookup key t)⟩

/-- C3 (witness): a concrete submission into the empty accumulator with a
one-member operator list leaves at most one claim for the task. -/
theorem submit_preserves_wf_witness :
    (lookupTask (submit_and_queue (fun s _ => some s) [5]
        [(0, TaskStatus.PENDING)] [] ⟨0, "42", 5⟩).1 0).length ≤
      ([5] : List Addr).length :=
  (submit_preserves_wf (fun s _ => some s) [5] [(0, TaskStatus.PENDING)] []
    ⟨0, "42", 5⟩ (fun e he => absurd he (List.not_mem_nil e))).2 0

/-- C4: handle_submit_task answers 200 with the claim forwarded when the
task is PENDING, 400 on signature-recovery failure, 403 for a recovered
signer outside the operator list, 404 for an absent task or one whose
status is EMPTY, and 409 with nothing forwarded for a COMPLETED or FAILED
task. -/
theorem submit_response_codes (recover : Sig → String → Option Addr)
    (ops : List Addr) (tasks : TaskMap) (r : OperatorResponse) :
    (recover r.signature r.result = none →
      submitStatusCode (handle_submit_task recover ops tasks r) = 400) ∧
    (∀ a, recover r.signature r.result = some a → a ∉ ops →
      submitStatusCode (handle_submit_task recover ops tasks r) = 403) ∧
    (∀ a, recover r.signature r.result = some a → a ∈ ops →
      (lookupStatus tasks r.task_id = none ∨
        lookupStatus tasks r.task_id = some .EMPTY) →
      submitStatusCode (handle_submit_task recover ops tasks r) = 404) ∧
    (∀ a, recover r.signature r.result = some a → a ∈ ops →
      (lookupStatus tasks r.task_id = some .COMPLETED ∨
        lookupStatus tasks r.task_id = some .FAILED) →
      submitStatusCode (handle_submit_task recover ops tasks r) = 409 ∧
        forwardedClaim (handle_submit_task recover ops tasks r) = none) ∧
    (∀ a, recover r.signature r.result = some a → a ∈ ops →
      lookupStatus tasks r.task_id = some .PENDING →
      submitStatusCode (handle_submit_task recover ops tasks r) = 200 ∧
        forwardedClaim (handle_submit_task recover ops tasks r) = some r) := by
  refine ⟨?_, ?_, ?_, ?_, ?_⟩
  · intro h
    simp [handle_submit_task, h, submitStatusCode, ServerError.statusCode]
  · intro a ha hmem
    simp [handle_submit_task, ha, hmem, submitStatusCode,
      ServerError.statusCode]
  · intro a ha hmem hst
    rcases hst with hst | hst <;>
      simp [handle_submit_task, ha, hmem, hst, submitStatusCode,
        ServerError.statusCode]
  · intro a ha hmem hst
    rcases hst with hst | hst <;>
      simp [handle_submit_task, ha, hmem, hst, submitStatusCode,
        ServerError.statusCode, forwardedClaim]
  · intro a ha hmem hst
    simp [handle_submit_task, ha, hmem, hst, submitStatusCode, forwardedClaim]

/-- C4 (witness): a claim for an already-COMPLETED task from a registered
signer answers 409 and is not forwarded into the pipeline. -/
theorem submit_response_codes_witness :
    submitStatusCode (handle_submit_task (fun s _ => some s) [5]
        [(0, TaskStatus.COMPLETED)] ⟨0, "42", 5⟩) = 409 ∧
      forwardedClaim (handle_submit_task (fun s _ => some s) [5]
        [(0, TaskStatus.COMPLETED)] ⟨0, "42", 5⟩) = none :=
  (submit_response_codes (fun s _ => some s) [5] [(0, TaskStatus.COMPLETED)]
    ⟨0, "42", 5⟩).2.2.2.1 5 rfl (by decide) (Or.inl rfl)

/-- C5 (counterexample): the event listener's insert is unconditional
(tasks.insert(task_id, PENDING)), so after a task is finalized COMPLETED
a further listener insert for the same task moves it back to PENDING —
an operation moving a task out of a terminal state, refuting the claimed
discipline over arbitrary operation sequences. -/
theorem listener_resets_terminal :
    dirGet (dirRun [] [DirOp.listen 0, DirOp.finalize 0 true]) 0 =
        TaskStatus.COMPLETED ∧
      dirGet (dirRun []
        [DirOp.listen 0, DirOp.finalize 0 true, DirOp.listen 0]) 0 =
        TaskStatus.PENDING ∧
      ¬ allowedStep TaskStatus.COMPLETED TaskStatus.PENDING :=
  ⟨rfl, rfl, by rintro (h | ⟨h, -⟩ | ⟨h, -⟩) <;> exact absurd h (by decide)⟩

/-- C5 (amended): a directory write makes an allowed transition — stay
put, Empty to Pending, or Pending to terminal — provided a listener
insert targets only a task that is still Empty or Pending and a
consensus-path write targets only a task that is Pending; the listener
insert on a terminal task (see the counterexample) is the write that
violates the discipline, and a consensus write on a non-Pending task
would skip Pending. -/
theorem dir_step_allowed (m : TaskMap) (op : DirOp) (t : TaskId)
    (hListen : ∀ t2, op = DirOp.listen t2 → t2 = t →
      dirGet m t = .EMPTY ∨ dirGet m t = .PENDING)
    (hFinal : ∀ t2 c, op = DirOp.finalize t2 c → t2 = t →
      dirGet m t = .PENDING) :
    allowedStep (dirGet m t) (dirGet (DirOp.apply m op) t) := by
  cases op with
  | listen t2 =>
    by_cases ht : t2 = t
    · subst ht
      have hpre := hListen t2 rfl rfl
      have hpost : dirGet (DirOp.apply m (DirOp.listen t2)) t2 =
          TaskStatus.PENDING := by
        simp [DirOp.apply, dirGet, lookupStatus_insert_self]
      rw [hpost]
      rcases hpre with h | h <;> rw [h]
      · exact Or.inr (Or.inl ⟨rfl, rfl⟩)
      · exact Or.inl rfl
    · have hpost : dirGet (DirOp.apply m (DirOp.listen t2)) t = dirGet m t := by
        simp [DirOp.apply, dirGet, lookupStatus_insert_other (Ne.symm ht)]
      rw [hpost]
      exact Or.inl rfl
  | finalize t2 c =>
    by_cases ht : t2 = t
    · subst ht
      have hpre := hFinal t2 c rfl rfl
      have hpost : dirGet (DirOp.apply m (DirOp.finalize t2 c)) t2 =
          (if c then TaskStatus.COMPLETED else TaskStatus.FAILED) := by
        simp [DirOp.apply, dirGet, lookupStatus_insert_self]
      rw [hpost, hpre]
      cases c
      · exact Or.inr (Or.inr ⟨rfl, Or.inr rfl⟩)
      · exact Or.inr (Or.inr ⟨rfl, Or.inl rfl⟩)
    · have hpost : dirGet (DirOp.apply m (DirOp.finalize t2 c)) t =
          dirGet m t := by
        simp [DirOp.apply, dirGet, lookupStatus_insert_other (Ne.symm ht)]
      rw [hpost]
      exact Or.inl rfl

/-- C5 (witness): a listener insert on an absent (Empty) task is an
allowed transition. -/
theorem dir_step_allowed_witness :
    allowedStep (dirGet [] 0) (dirGet (DirOp.apply [] (DirOp.listen 0)) 0) :=
  dir_step_allowed [] (DirOp.listen 0) 0
    (fun _ _ _ => Or.inl rfl)
    (fun t2 c h _ => by cases h)

/-- C6: consensus determination is deterministic in the claim set: any
two orderings (permutations) of the same per-operator claims produce the
same verdict — same status and same value — also in the mismatch and
unparseable cases. -/
theorem process_deterministic (c₁ c₂ : TaskClaims) (h : c₁.Perm c₂) :
    process_completed_tasks c₁ = process_completed_tasks c₂ := by
  rw [process_eq_consensus, process_eq_consensus]
  cases h1 : c₁.mapM (fun e => parseU256 (rustTrim e.2.result)) with
  | none =>
    cases h2 : c₂.mapM (fun e => parseU256 (rustTrim e.2.result)) with
    | none => rfl
    | some v₂ =>
      have h2f := mapM_eq_some_iff.mp h2
      rcases List.perm_comp_forall₂ h h2f with ⟨v₁, h1f, hv⟩
      rw [mapM_eq_some_iff.mpr h1f] at h1
      simp at h1
  | some v₁ =>
    have h1f := mapM_eq_some_iff.mp h1
    rcases List.perm_comp_forall₂ h.symm h1f with ⟨v₂, h2f, hv⟩
    rw [mapM_eq_some_iff.mpr h2f]
    exact consensusOf_perm hv.symm

/-- C6 (witness): swapping the arrival order of two differing claims
gives the same (FAILED, 0) verdict expression on both sides. -/
theorem process_deterministic_witness :
    process_completed_tasks [(1, ⟨0, "42", 1⟩), (2, ⟨0, "43", 2⟩)] =
      process_completed_tasks [(2, ⟨0, "43", 2⟩), (1, ⟨0, "42", 1⟩)] :=
  process_deterministic _ _ (List.Perm.swap _ _ _)

/-- C7: a completed snapshot containing a claim whose trimmed result text
does not parse as a U256 makes process_completed_tasks hit the unwrap
panic: no verdict is produced for that task (modelled as `none`). -/
theorem process_unparseable (claims : TaskClaims)
    (p : Addr × OperatorResponse) (hmem : p ∈ claims)
    (hbad : parseU256 (rustTrim p.2.result) = none) :
    process_completed_tasks claims = none := by
  rw [process_eq_consensus, mapM_eq_none_of_mem hmem hbad]
  rfl

/-- C7 (witness): a reachable single-claim snapshot whose result text is
not numeric crashes the consensus stage instead of producing a verdict. -/
theorem process_unparseable_witness :
    process_completed_tasks [(1, ⟨0, "not a number", 1⟩)] = none :=
  process_unparseable _ (1, ⟨0, "not a number", 1⟩) (by decide) (by rfl)

/-- C8: the task-status query never errors: a stored status is returned
as-is and an absent task id is answered with EMPTY. -/
theorem task_status_total (tasks : TaskMap) (t : TaskId) :
    (∀ s, lookupStatus tasks t = some s → handle_task_status tasks t = .ok s) ∧
    (lookupStatus tasks t = none → handle_task_status tasks t = .ok .EMPTY) ∧
    ∃ s, handle_task_status tasks t = .ok s := by
  unfold handle_task_status
  cases h : lookupStatus tasks t <;> simp

/-- C8 (witness): a stored PENDING task returns PENDING and an unknown id
returns EMPTY, both without error. -/
theorem task_status_total_witness :
    handle_task_status [(0, TaskStatus.PENDING)] 0 =
        .ok TaskStatus.PENDING ∧
      handle_task_status [(0, TaskStatus.PENDING)] 1 = .ok TaskStatus.EMPTY :=
  ⟨(task_status_total [(0, TaskStatus.PENDING)] 0).1 TaskStatus.PENDING rfl,
   (task_status_total [(0, TaskStatus.PENDING)] 1).2.1 rfl⟩

/-- C9: the operator's submission retry loop (modelled from the spec, the
claim-submission worker being absent from this source snapshot) makes at
most 3 attempts: consecutive "not found" responses give exactly 3
attempts separated by two fixed 1-second delays and then a give-up
without crashing, while any other failure response aborts after the one
attempt with no retry. -/
theorem submit_retry_policy (resp : Nat → SubmitResult) :
    ((∀ i, i < 3 → resp i = .notFound) →
        submit_claim resp = (3, [1, 1], SubmitOutcome.gaveUp)) ∧
    (resp 0 = .otherFailure →
        submit_claim resp = (1, [], SubmitOutcome.abandoned)) := by
  constructor
  · intro h
    have h0 := h 0 (by decide)
    have h1 := h 1 (by decide)
    have h2 := h 2 (by decide)
    simp [submit_claim, submitWithRetry, h0, h1, h2]
  · intro h
    simp [submit_claim, submitWithRetry, h]

/-- C9 (witness): an endpoint answering "not found" on every attempt gets
exactly 3 attempts, two 1-second delays and a give-up; one answering a
different failure gets a single attempt and an abandon. -/
theorem submit_retry_policy_witness :
    submit_claim (fun _ => SubmitResult.notFound) =
        (3, [1, 1], SubmitOutcome.gaveUp) ∧
      submit_claim (fun _ => SubmitResult.otherFailure) =
        (1, [], SubmitOutcome.abandoned) :=
  ⟨(submit_retry_policy (fun _ => SubmitResult.notFound)).1 (fun _ _ => rfl),
   (submit_retry_policy (fun _ => SubmitResult.otherFailure)).2 rfl⟩

/-- C10: validation precedence in handle_submit_task is signature
recovery first, then operator membership, then task state: a failed
recovery answers 400 whatever the task map holds (in particular for an
unknown task), and a recovered non-member answers 403 whatever the task
map holds (in particular for a terminal task). -/
theorem submit_precedence (recover : Sig → String → Option Addr)
    (ops : List Addr) (tasks : TaskMap) (r : OperatorResponse) :
    (recover r.signature r.result = none →
      submitStatusCode (handle_submit_task recover ops tasks r) = 400) ∧
    (∀ a, recover r.signature r.result = some a → a ∉ ops →
      submitStatusCode (handle_submit_task recover ops tasks r) = 403) := by
  constructor
  · intro h
    simp [handle_submit_task, h, submitStatusCode, ServerError.statusCode]
  · intro a ha hmem
    simp [handle_submit_task, ha, hmem, submitStatusCode,
      ServerError.statusCode]

/-- C10 (witness): an unrecoverable signature for an unknown task answers
400, not 404; a validly signed non-member claim for a COMPLETED task
answers 403, not 409. -/
theorem submit_precedence_witness :
    submitStatusCode (handle_submit_task (fun _ _ => none) [5] []
        ⟨0, "42", 9⟩) = 400 ∧
      submitStatusCode (handle_submit_task (fun s _ => some s) [5]
        [(0, TaskStatus.COMPLETED)] ⟨0, "42", 9⟩) = 403 :=
  ⟨(submit_precedence (fun _ _ => none) [5] [] ⟨0, "42", 9⟩).1 rfl,
   (submit_precedence (fun s _ => some s) [5] [(0, TaskStatus.COMPLETED)]
      ⟨0, "42", 9⟩).2 9 rfl (by decide)⟩
